import Mathlib

/-!
Verification of the carousel component extractor and the heuristic
text-to-config field parser of `doordash_api_gui.py`.

The JSON-like documents handed to the extractor are modelled by the
inductive type `DDGui.JSON`; Python dictionaries become association lists
in insertion order, Python lists become `List`s.  Each Python function in
scope is translated into a total Lean function: the broad
`try/except` blocks of the source, which turn any per-node exception
(attribute errors on wrongly-typed values) into "no match", become
explicit fall-through branches returning `false`/`none`.
-/

namespace DDGui

/-- A JSON-like document: `null`, booleans, numbers, strings, sequences
and keyed mappings (association list in insertion order). -/
inductive JSON where
  | null : JSON
  | bool (b : Bool) : JSON
  | num (n : Int) : JSON
  | str (s : String) : JSON
  | arr (items : List JSON) : JSON
  | obj (members : List (String × JSON)) : JSON

/-- Python `d.get(k)` on a dict: the value stored at key `k`, if any. -/
def dictGet (kvs : List (String × JSON)) (k : String) : Option JSON :=
  match kvs with
  | [] => none
  | (k', v) :: rest => if k' = k then some v else dictGet rest k

/-- The characters stripped by Python's `str.strip()` (ASCII whitespace). -/
def pyIsSpace (c : Char) : Bool :=
  c = ' ' || c = '\t' || c = '\n' || c = '\r' || c = '\x0b' || c = '\x0c'

/-- Python `str.strip()` on a character list. -/
def pyStripChars (cs : List Char) : List Char :=
  ((cs.dropWhile pyIsSpace).reverse.dropWhile pyIsSpace).reverse

/-- Python `str.strip()`. -/
def pyStrip (s : String) : String := String.mk (pyStripChars s.data)

/-- Python `s.startswith(p)`. -/
def pyStartsWith (s p : String) : Bool := p.data.isPrefixOf s.data

/-- Translation of `is_store_carousel` (doordash_api_gui.py:2008-2019).
`item.get('id', '')` defaults to `""`; calling `.startswith` on a
non-string id, or `.get` on a non-dict `component` or non-dict `item`,
raises in Python and is caught by the bare `except`, yielding `False`:
those paths are the explicit `false` branches here. -/
def is_store_carousel (item : JSON) : Bool :=
  match item with
  | JSON.obj kvs =>
    match (dictGet kvs "id").getD (JSON.str "") with
    | JSON.str item_id =>
      if pyStartsWith item_id "carousel.standard:store_carousel" then
        match (dictGet kvs "component").getD (JSON.obj []) with
        | JSON.obj comp =>
          (match dictGet comp "id" with
           | some (JSON.str s) => s == "carousel.standard"
           | _ => false) &&
          (match dictGet comp "category" with
           | some (JSON.str s) => s == "carousel"
           | _ => false)
        | _ => false
      else false
    | _ => false
  | _ => false

/-- The record built by `extract_store_carousel_info` for one match. -/
structure CarouselInfo where
  id : JSON
  component_id : JSON
  component_category : JSON
  text_fields : List (String × String)

/-- The `text`-mapping filter of `extract_store_carousel_info`: keep only
string values that are non-empty after stripping, storing the stripped
value under the original key; a non-mapping `text` contributes nothing. -/
def textFieldsFrom (t : JSON) : List (String × String) :=
  match t with
  | JSON.obj tkvs =>
    tkvs.filterMap (fun p =>
      match p.2 with
      | JSON.str s => if pyStrip s = "" then none else some (p.1, pyStrip s)
      | _ => none)
  | _ => []

/-- Translation of `extract_store_carousel_info` (doordash_api_gui.py:2021-2045).
A non-dict `item` or a present-but-non-dict `component` raises in Python
(caught, returning `None`): the `none` fall-through branches.  The record
is returned only when the filtered `text_fields` is non-empty. -/
def extract_store_carousel_info (item : JSON) : Option CarouselInfo :=
  match item with
  | JSON.obj kvs =>
    match (dictGet kvs "component").getD (JSON.obj []) with
    | JSON.obj comp =>
      let tfs := textFieldsFrom ((dictGet kvs "text").getD (JSON.obj []))
      if tfs.isEmpty then none
      else some
        { id := (dictGet kvs "id").getD (JSON.str "")
          component_id := (dictGet comp "id").getD (JSON.str "")
          component_category := (dictGet comp "category").getD (JSON.str "")
          text_fields := tfs }
    | _ => none
  | _ => none

/-- The contribution of the node itself inside `find_store_carousels_recursive`:
the extracted record when the node matches and has usable text, else nothing. -/
def matchedRecord (j : JSON) : List CarouselInfo :=
  if is_store_carousel j then (extract_store_carousel_info j).toList else []

mutual

/-- Translation of `find_store_carousels_recursive` (doordash_api_gui.py:1990-2006):
at a dict, test the node then recurse into every value; at a list, recurse
into every element in order; leaves contribute nothing.  The Python code
appends into an accumulator list; returning the appended segment is
equivalent. -/
def find_store_carousels_recursive : JSON → List CarouselInfo
  | JSON.obj kvs => matchedRecord (JSON.obj kvs) ++ findInMembers kvs
  | JSON.arr xs => findInItems xs
  | JSON.null => []
  | JSON.bool _ => []
  | JSON.num _ => []
  | JSON.str _ => []

/-- Recursion of `find_store_carousels_recursive` over `obj.values()`. -/
def findInMembers : List (String × JSON) → List CarouselInfo
  | [] => []
  | (_, v) :: rest => find_store_carousels_recursive v ++ findInMembers rest

/-- Recursion of `find_store_carousels_recursive` over list items. -/
def findInItems : List JSON → List CarouselInfo
  | [] => []
  | x :: rest => find_store_carousels_recursive x ++ findInItems rest

end

/-- Python truthiness of a JSON-like value, as tested by `if data:`. -/
def pyTruthy : JSON → Bool
  | JSON.null => false
  | JSON.bool b => b
  | JSON.num n => n != 0
  | JSON.str s => s != ""
  | JSON.arr xs => !xs.isEmpty
  | JSON.obj kvs => !kvs.isEmpty

/-- Translation of `extract_carousel_titles` (doordash_api_gui.py:1977-1988):
skip the walk entirely on a falsy document (`if data:`), else return the
accumulated matches.  The enclosing `try/except` never fires since the
walk is total. -/
def extract_carousel_titles (data : JSON) : List CarouselInfo :=
  if pyTruthy data then find_store_carousels_recursive data else []

mutual

/-- Translation of `find_store_carousels_recursive` keeping the Python
signature: the caller passes the accumulator list `carousels` and the
walk appends every match to it, in traversal order. -/
def findAcc : JSON → List CarouselInfo → List CarouselInfo
  | JSON.obj kvs, acc => findAccMembers kvs (acc ++ matchedRecord (JSON.obj kvs))
  | JSON.arr xs, acc => findAccItems xs acc
  | JSON.null, acc => acc
  | JSON.bool _, acc => acc
  | JSON.num _, acc => acc
  | JSON.str _, acc => acc

/-- Accumulating recursion of `findAcc` over a mapping's values. -/
def findAccMembers : List (String × JSON) → List CarouselInfo → List CarouselInfo
  | [], acc => acc
  | (_, v) :: rest, acc => findAccMembers rest (findAcc v acc)

/-- Accumulating recursion of `findAcc` over a sequence's elements. -/
def findAccItems : List JSON → List CarouselInfo → List CarouselInfo
  | [], acc => acc
  | x :: rest, acc => findAccItems rest (findAcc x acc)

end

mutual

/-- All nodes of a document in depth-first pre-order: a node is listed
before every node of its subtree, a mapping's values in key insertion
order, a sequence's elements in sequence order.  Used only to state the
traversal-order properties; independent of the extractor's code. -/
def preOrderNodes : JSON → List JSON
  | JSON.obj kvs => JSON.obj kvs :: preOrderMembers kvs
  | JSON.arr xs => JSON.arr xs :: preOrderItems xs
  | JSON.null => [JSON.null]
  | JSON.bool b => [JSON.bool b]
  | JSON.num n => [JSON.num n]
  | JSON.str s => [JSON.str s]

/-- Pre-order nodes of a mapping's values, in insertion order. -/
def preOrderMembers : List (String × JSON) → List JSON
  | [] => []
  | (_, v) :: rest => preOrderNodes v ++ preOrderMembers rest

/-- Pre-order nodes of a sequence's elements, in order. -/
def preOrderItems : List JSON → List JSON
  | [] => []
  | x :: rest => preOrderNodes x ++ preOrderItems rest

end

/-- What one visited node contributes to the result: its extraction
record when it matches the component signature and survives the
text-field filter, and nothing otherwise. -/
def matchStep (j : JSON) : Option CarouselInfo :=
  if is_store_carousel j then extract_store_carousel_info j else none

/-- The `text_fields` mapping as the specification describes it: iterate
the node's `"text"` mapping when present and itself a mapping, keep only
entries whose value is a string that is non-empty after trimming
leading/trailing whitespace, and store the trimmed value under the
original field name.  Stated from the spec's words, to be compared with
`extract_store_carousel_info`. -/
def specTextFields (kvs : List (String × JSON)) : List (String × String) :=
  match dictGet kvs "text" with
  | some (JSON.obj tkvs) =>
    tkvs.filterMap fun p =>
      match p.2 with
      | JSON.str s => if pyStrip s = "" then none else some (p.1, pyStrip s)
      | _ => none
  | _ => []

/-! ### The heuristic text-to-config parser -/

/-- Python `str.lower()` (ASCII case fold, as `Char.toLower`). -/
def pyLower (s : String) : String := String.mk (s.data.map Char.toLower)

/-- Python substring test `needle in hay`: scan left to right for a
position where `needle` occurs. -/
def containsChars (needle : List Char) : List Char → Bool
  | [] => needle.isEmpty
  | c :: rest => needle.isPrefixOf (c :: rest) || containsChars needle rest

/-- Python `needle in hay` on strings. -/
def strContains (hay needle : String) : Bool := containsChars needle.data hay.data

/-- Python `content.split('\n')` on a character list. -/
def splitOnNl : List Char → List (List Char)
  | [] => [[]]
  | c :: rest =>
    if c = '\n' then [] :: splitOnNl rest
    else
      match splitOnNl rest with
      | [] => [[c]]
      | g :: gs => (c :: g) :: gs

/-- The `clean_lines` list of `extract_fields_from_text`: split on newlines, strip
each line, keep only the non-empty results. -/
def cleanLines (content : String) : List String :=
  (splitOnNl content.data).filterMap fun cs =>
    let t := pyStripChars cs
    if t.isEmpty then none else some (String.mk t)

/-- Character class `[a-z]`. -/
def isLowerAZ (c : Char) : Bool := 'a' ≤ c && c ≤ 'z'

/-- Character class `[a-z0-9_]`. -/
def isKeyMid (c : Char) : Bool := isLowerAZ c || c.isDigit || c = '_'

/-- Character class `[a-z0-9]`. -/
def isKeyLast (c : Char) : Bool := isLowerAZ c || c.isDigit

/-- Python `re.match(r'^[a-z][a-z0-9_]*[a-z0-9]$', line)` as a Boolean:
a lowercase letter, then middle characters from `[a-z0-9_]`, ending in a
lowercase letter or digit (so at least two characters). -/
def matchesKeyPattern (s : String) : Bool :=
  match s.data with
  | [] => false
  | [_] => false
  | c :: rest =>
    isLowerAZ c && rest.dropLast.all isKeyMid &&
      (match rest.getLast? with
       | some d => isKeyLast d
       | none => false)

/-- The stoplist of common non-key words in `extract_fields_from_text`. -/
def stopWords : List String :=
  ["type", "experiment", "return", "owner", "vertical", "consumer", "last",
   "updated", "start", "date", "end", "configure", "test", "monitor", "debug",
   "implement", "history", "details"]

/-- The experiment-key loop of `extract_fields_from_text`
(doordash_api_gui.py:988-995): the first line matching the snake-case
pattern with length above five that is not a stopword; a stopword match
does not stop the search. -/
def findKey : List String → Option String
  | [] => none
  | l :: rest =>
    if matchesKeyPattern l && decide (l.length > 5) then
      if stopWords.contains l then findKey rest else some l
    else findKey rest

/-- Python dict assignment `d[k] = v`: overwrite in place, else append. -/
def setKey (m : List (String × String)) (k v : String) : List (String × String) :=
  match m with
  | [] => [(k, v)]
  | (k', v') :: rest => if k' = k then (k, v) :: rest else (k', v') :: setKey rest k v

/-- Python `re.sub(r'\s+', '.', s)`: each maximal whitespace run becomes
one dot.  The flag records whether the scan is inside a whitespace run. -/
def collapseWsAux : Bool → List Char → List Char
  | _, [] => []
  | inRun, c :: rest =>
    if pyIsSpace c then
      if inRun then collapseWsAux true rest else '.' :: collapseWsAux true rest
    else c :: collapseWsAux false rest

/-- Python `re.sub(r'\s+', '.', s)`. -/
def collapseWs (cs : List Char) : List Char := collapseWsAux false cs

/-- Python `re.sub(pat + '$', repl, s)` for a literal `pat`: rewrite the
suffix when it is present. -/
def subAtEnd (s pat repl : String) : String :=
  if pat.data.isSuffixOf s.data then
    String.mk (s.data.take (s.data.length - pat.data.length) ++ repl.data)
  else s

/-- Translation of `format_email` (doordash_api_gui.py:1190-1210): strip
and lowercase; when no `@` is present, drop characters outside
`[a-zA-Z0-9\s.-]`, strip, turn whitespace runs into dots and append
`@doordash.com`; finally fix the two domain typos. -/
def format_email (input_text : String) : String :=
  if input_text = "" then ""
  else
    let email := pyLower (pyStrip input_text)
    let email :=
      if strContains email "@" then email
      else
        let cleaned := email.data.filter fun c =>
          c.isAlphanum || pyIsSpace c || c = '.' || c = '-'
        String.mk (collapseWs (pyStripChars cleaned)) ++ "@doordash.com"
    let email := subAtEnd email "@doordash.co" "@doordash.com"
    subAtEnd email "@dd.com" "@doordash.com"

/-- The owner block of `extract_fields_from_text`
(doordash_api_gui.py:1001-1006): a line mentioning `owner` takes the next
line as owner when it has an `@` or a known name fragment. -/
def ownerStep (m : List (String × String)) (line : String) (nx : Option String) :
    List (String × String) :=
  if strContains (pyLower line) "owner" then
    match nx with
    | some nl =>
      if strContains nl "@" || strContains (pyLower nl) "harsh" ||
          strContains (pyLower nl) "alkutkar" then
        setKey m "owner" (format_email nl)
      else m
    | none => m
  else m

/-- The type block (doordash_api_gui.py:1008-1012). -/
def typeStep (m : List (String × String)) (line : String) (nx : Option String) :
    List (String × String) :=
  if strContains (pyLower line) "type" then
    match nx with
    | some nl =>
      if ["experiment", "feature", "config"].contains (pyLower nl) then
        setKey m "type" nl
      else m
    | none => m
  else m

/-- Python `str.title()`: uppercase a letter that follows a non-letter,
lowercase the other letters. -/
def pyTitleChars : Bool → List Char → List Char
  | _, [] => []
  | prevAlpha, c :: rest =>
    if c.isAlpha then
      (if prevAlpha then c.toLower else c.toUpper) :: pyTitleChars true rest
    else c :: pyTitleChars false rest

/-- Python `str.title()`. -/
def pyTitle (s : String) : String := String.mk (pyTitleChars false s.data)

/-- The return-type block (doordash_api_gui.py:1014-1022): sets a default
value for boolean/string return types and always records the title-cased
lowered next line as `returnType`. -/
def returnTypeStep (m : List (String × String)) (line : String) (nx : Option String) :
    List (String × String) :=
  if strContains (pyLower line) "return type" then
    match nx with
    | some nl =>
      setKey
        (if strContains (pyLower nl) "boolean" then setKey m "defaultValue" "false"
         else if strContains (pyLower nl) "string" then setKey m "defaultValue" "control"
         else m)
        "returnType" (pyTitle (pyLower nl))
    | none => m
  else m

/-- The description block (doordash_api_gui.py:1024-1028). -/
def descriptionStep (m : List (String × String)) (line : String) (nx : Option String) :
    List (String × String) :=
  if strContains (pyLower line) "problem statement" then
    match nx with
    | some nl => if decide (nl.length > 20) then setKey m "description" nl else m
    | none => m
  else m

/-- One attempt of the regex `\d{4}-\d{2}-\d{2}` at the current position:
the matched ten characters, when the window fits the shape. -/
def dateAt : List Char → Option String
  | a :: b :: c :: d :: h1 :: e :: f :: h2 :: g :: k :: _ =>
    if a.isDigit && b.isDigit && c.isDigit && d.isDigit && h1 = '-' &&
        e.isDigit && f.isDigit && h2 = '-' && g.isDigit && k.isDigit then
      some (String.mk [a, b, c, d, '-', e, f, '-', g, k])
    else none
  | _ => none

/-- Python `re.findall(r'(\d{4}-\d{2}-\d{2})', s)`: non-overlapping
left-to-right matches; on a match the scan resumes after its ten
characters (the `skip` counter), otherwise it advances one character. -/
def findDatesAux : Nat → List Char → List String
  | _, [] => []
  | Nat.succ n, _ :: rest => findDatesAux n rest
  | 0, c :: rest =>
    match dateAt (c :: rest) with
    | some d => d :: findDatesAux 9 rest
    | none => findDatesAux 0 rest

/-- The character-list scan behind `findDates`. -/
def findDatesChars (cs : List Char) : List String := findDatesAux 0 cs

/-- All `YYYY-MM-DD` shaped substrings of `s`, as `re.findall` returns them. -/
def findDates (s : String) : List String := findDatesChars s.data

/-- The near-future year literals of the date heuristic. -/
def hasNearYear (s : String) : Bool :=
  strContains s "2026" || strContains s "2027" || strContains s "2028"

/-- The date-marker test of `extract_fields_from_text`
(doordash_api_gui.py:1031): the lowered line contains one of the keywords. -/
def isDateMarker (ll : String) : Bool :=
  strContains ll "start date" || strContains ll "end date" || strContains ll "date"

/-- The inner date loop (doordash_api_gui.py:1033-1044): examine the
marker line, then the following line, stopping at the first examined line
with any date in it; two or more dates store the last, a single date is
stored only when the lowered marker line contains `end` or the examined
line has a near-future year. -/
def dateLoop (m : List (String × String)) (ll : String) :
    List String → List (String × String)
  | [] => m
  | cl :: rest =>
    match findDates cl with
    | [] => dateLoop m ll rest
    | [d] =>
      if strContains ll "end" || hasNearYear cl then setKey m "expiration" d else m
    | d :: d2 :: ds => setKey m "expiration" ((d2 :: ds).getLastD d)

/-- The date block of `extract_fields_from_text`
(doordash_api_gui.py:1031-1044). -/
def dateStep (m : List (String × String)) (line : String) (nx : Option String) :
    List (String × String) :=
  if isDateMarker (pyLower line) then dateLoop m (pyLower line) [line, nx.getD ""]
  else m

/-- The date rule as the specification words it: search the marker line
and the following line for dates; with two or more dates the last one is
the expiration, with exactly one date it is stored only when the marker
line contains `end` or the examined line contains a near-future year
literal, and with no date nothing is stored.  Stated from the spec's
words, to be compared with `dateStep`. -/
def dateStepSpec (m : List (String × String)) (line : String) (nx : Option String) :
    List (String × String) :=
  if isDateMarker (pyLower line) then
    if 2 ≤ (findDates line).length then
      setKey m "expiration" ((findDates line).getLastD "")
    else if (findDates line).length = 1 then
      if strContains (pyLower line) "end" || hasNearYear line then
        setKey m "expiration" ((findDates line).headD "")
      else m
    else if 2 ≤ (findDates (nx.getD "")).length then
      setKey m "expiration" ((findDates (nx.getD "")).getLastD "")
    else if (findDates (nx.getD "")).length = 1 then
      if strContains (pyLower line) "end" || hasNearYear (nx.getD "") then
        setKey m "expiration" ((findDates (nx.getD "")).headD "")
      else m
    else m
  else m

/-- The field loop of `extract_fields_from_text`
(doordash_api_gui.py:997-1044): every cleaned line is matched against
each marker block in turn, with the following cleaned line as candidate
value. -/
def processLines (m : List (String × String)) : List String → List (String × String)
  | [] => m
  | line :: rest =>
    processLines
      (dateStep
        (descriptionStep
          (returnTypeStep
            (typeStep (ownerStep m line rest.head?) line rest.head?)
            line rest.head?)
          line rest.head?)
        line rest.head?)
      rest

/-- Translation of `extract_fields_from_text` (doordash_api_gui.py:980-1046):
clean the lines, find the experiment key, then run every marker block
over the lines.  The result is the `extracted_data` dict in insertion
order. -/
def extract_fields_from_text (content : String) : List (String × String) :=
  processLines
    (match findKey (cleanLines content) with
     | some k => setKey [] "key" k
     | none => [])
    (cleanLines content)

/-- The seven field names the parser can ever emit. -/
def allowedKeys : List String :=
  ["key", "owner", "type", "returnType", "defaultValue", "description",
   "expiration"]

/-! ### Concrete sample values used by witnesses -/

/-- Members of a well-formed store-carousel mapping node. -/
def sampleMembers : List (String × JSON) :=
  [("id", JSON.str "carousel.standard:store_carousel_42"),
   ("component", JSON.obj [("id", JSON.str "carousel.standard"),
     ("category", JSON.str "carousel")]),
   ("text", JSON.obj [("title", JSON.str "  Popular near you  "),
     ("subtitle", JSON.str "")])]

/-- The record the extractor produces for `sampleMembers`. -/
def sampleRecord : CarouselInfo :=
  { id := JSON.str "carousel.standard:store_carousel_42"
    component_id := JSON.str "carousel.standard"
    component_category := JSON.str "carousel"
    text_fields := [("title", "Popular near you")] }

/-- Members of a malformed candidate node: `component` is a string. -/
def sampleMalformedMembers : List (String × JSON) :=
  [("id", JSON.str "carousel.standard:store_carousel_1"),
   ("component", JSON.str "not-a-mapping")]

theorem matchedRecord_eq_toList (j : JSON) :
    matchedRecord j = (matchStep j).toList := by
  unfold matchedRecord matchStep
  by_cases h : is_store_carousel j <;> simp [h]

mutual

theorem find_eq_preorder (j : JSON) :
    find_store_carousels_recursive j = (preOrderNodes j).filterMap matchStep := by
  match j with
  | JSON.obj kvs =>
    rw [find_store_carousels_recursive, preOrderNodes, List.filterMap_cons,
      findMembers_eq_preorder kvs, matchedRecord_eq_toList]
    cases matchStep (JSON.obj kvs) <;> simp
  | JSON.arr xs =>
    rw [find_store_carousels_recursive, preOrderNodes, List.filterMap_cons,
      findItems_eq_preorder xs]
    simp [matchStep, is_store_carousel]
  | JSON.null => simp [find_store_carousels_recursive, preOrderNodes, matchStep,
      is_store_carousel]
  | JSON.bool b => simp [find_store_carousels_recursive, preOrderNodes, matchStep,
      is_store_carousel]
  | JSON.num n => simp [find_store_carousels_recursive, preOrderNodes, matchStep,
      is_store_carousel]
  | JSON.str s => simp [find_store_carousels_recursive, preOrderNodes, matchStep,
      is_store_carousel]

theorem findMembers_eq_preorder (kvs : List (String × JSON)) :
    findInMembers kvs = (preOrderMembers kvs).filterMap matchStep := by
  match kvs with
  | [] => simp [findInMembers, preOrderMembers]
  | (k, v) :: rest =>
    rw [findInMembers, preOrderMembers, List.filterMap_append,
      find_eq_preorder v, findMembers_eq_preorder rest]

theorem findItems_eq_preorder (xs : List JSON) :
    findInItems xs = (preOrderItems xs).filterMap matchStep := by
  match xs with
  | [] => simp [findInItems, preOrderItems]
  | x :: rest =>
    rw [findInItems, preOrderItems, List.filterMap_append,
      find_eq_preorder x, findItems_eq_preorder rest]

end

/-- The truthiness shortcut of `extract_carousel_titles` never changes the
result: every falsy document also has no matching node. -/
theorem extract_eq_find (data : JSON) :
    extract_carousel_titles data = find_store_carousels_recursive data := by
  unfold extract_carousel_titles
  by_cases h : pyTruthy data
  · simp [h]
  · simp [h]
    match data, h with
    | JSON.null, _ => rfl
    | JSON.bool b, _ => rfl
    | JSON.num n, _ => rfl
    | JSON.str s, _ => rfl
    | JSON.arr xs, h =>
      have hx : xs = [] := by
        simpa [pyTruthy, List.isEmpty_iff] using h
      subst hx; rfl
    | JSON.obj kvs, h =>
      have hk : kvs = [] := by
        simpa [pyTruthy, List.isEmpty_iff] using h
      subst hk
      simp [find_store_carousels_recursive, findInMembers, matchedRecord,
        is_store_carousel, dictGet, pyStartsWith]

/-- The component-signature predicate, characterised: a node passes
`is_store_carousel` exactly when it is a mapping whose `id` value is a
string with the carousel prefix and whose `component` value is a mapping
carrying the two literal fields. -/
theorem store_carousel_signature_iff (j : JSON) :
    is_store_carousel j = true ↔
      ∃ kvs item_id comp, j = JSON.obj kvs ∧
        dictGet kvs "id" = some (JSON.str item_id) ∧
        pyStartsWith item_id "carousel.standard:store_carousel" = true ∧
        dictGet kvs "component" = some (JSON.obj comp) ∧
        dictGet comp "id" = some (JSON.str "carousel.standard") ∧
        dictGet comp "category" = some (JSON.str "carousel") := by
  constructor
  · intro h
    match j with
    | JSON.obj kvs =>
      refine ⟨kvs, ?_⟩
      rw [is_store_carousel] at h
      split at h
      next item_id hid =>
        split at h
        next hsw =>
          split at h
          next comp hcomp =>
            rw [Bool.and_eq_true] at h
            obtain ⟨h1, h2⟩ := h
            have hid' : dictGet kvs "id" = some (JSON.str item_id) := by
              cases hdg : dictGet kvs "id" with
              | none =>
                rw [hdg, Option.getD_none] at hid
                cases hid
                exact absurd hsw (by decide)
              | some v => rw [hdg, Option.getD_some] at hid; rw [hid]
            have hc' : dictGet kvs "component" = some (JSON.obj comp) := by
              cases hdg : dictGet kvs "component" with
              | none =>
                rw [hdg, Option.getD_none] at hcomp
                cases hcomp
                simp [dictGet] at h1
              | some v => rw [hdg, Option.getD_some] at hcomp; rw [hcomp]
            refine ⟨item_id, comp, rfl, hid', hsw, hc', ?_, ?_⟩
            · split at h1
              next s hs => simp at h1; rw [hs, h1]
              next hne => cases h1
            · split at h2
              next s hs => simp at h2; rw [hs, h2]
              next hne => cases h2
          next => cases h
        next => cases h
      next => cases h
  · rintro ⟨kvs, item_id, comp, rfl, hid, hsw, hc, hcid, hcat⟩
    rw [is_store_carousel, hid, hc]
    simp [hsw, hcid, hcat]

/-- C1: a mapping node is treated as a matching component iff its `id`
value is a string starting with the literal
`carousel.standard:store_carousel`, and its `component` value is a
mapping whose `id` equals `carousel.standard` and whose `category` equals
`carousel`; a node missing any required key or with a wrong-typed
required value never matches, and the predicate is total, so no error is
raised. -/
theorem c1_component_signature (j : JSON) :
    is_store_carousel j = true ↔
      ∃ kvs item_id comp, j = JSON.obj kvs ∧
        dictGet kvs "id" = some (JSON.str item_id) ∧
        pyStartsWith item_id "carousel.standard:store_carousel" = true ∧
        dictGet kvs "component" = some (JSON.obj comp) ∧
        dictGet comp "id" = some (JSON.str "carousel.standard") ∧
        dictGet comp "category" = some (JSON.str "carousel") :=
  store_carousel_signature_iff j

/-- C4: the result collection is the pre-order node list filtered through
the matching step, so a matching parent precedes matches from its
subtree, sibling matches inside a mapping come in key insertion order,
and matches inside a sequence come in sequence order. -/
theorem c4_preorder_result_order (data : JSON) :
    extract_carousel_titles data = (preOrderNodes data).filterMap matchStep :=
  (extract_eq_find data).trans (find_eq_preorder data)

theorem findInMembers_flatMap (kvs : List (String × JSON)) :
    findInMembers kvs = (kvs.map Prod.snd).flatMap find_store_carousels_recursive := by
  induction kvs with
  | nil => rfl
  | cons kv rest ih =>
    cases kv with
    | mk k v => simp [findInMembers, ih]

theorem findInItems_flatMap (xs : List JSON) :
    findInItems xs = xs.flatMap find_store_carousels_recursive := by
  induction xs with
  | nil => rfl
  | cons x rest ih => simp [findInItems, ih]

/-- C5: after testing a mapping node the walk still descends into every
value of that mapping, matched or not: the output is the node's own
contribution followed by the concatenation of the recursive outputs on
all values (or on all sequence elements), with no early termination and
no de-duplication. -/
theorem c5_no_early_exit :
    (∀ kvs : List (String × JSON),
        find_store_carousels_recursive (JSON.obj kvs) =
          (matchStep (JSON.obj kvs)).toList ++
            (kvs.map Prod.snd).flatMap find_store_carousels_recursive) ∧
    (∀ xs : List JSON,
        find_store_carousels_recursive (JSON.arr xs) =
          xs.flatMap find_store_carousels_recursive) := by
  constructor
  · intro kvs
    rw [find_store_carousels_recursive, matchedRecord_eq_toList, findInMembers_flatMap]
  · intro xs
    rw [find_store_carousels_recursive, findInItems_flatMap]

/-- C6: the three empty/absent inputs and, more generally, any document
in which no node passes the component signature give an empty result, and
the extractor is total, so it never raises. -/
theorem c6_empty_or_matchless_inputs :
    (extract_carousel_titles JSON.null = [] ∧
     extract_carousel_titles (JSON.arr []) = [] ∧
     extract_carousel_titles (JSON.obj []) = []) ∧
    ∀ data : JSON,
      ((preOrderNodes data).all fun m => !is_store_carousel m) = true →
        extract_carousel_titles data = [] := by
  refine ⟨⟨rfl, rfl, rfl⟩, ?_⟩
  intro data h
  rw [extract_eq_find, find_eq_preorder]
  rw [List.filterMap_eq_nil_iff]
  intro m hm
  have hmf := List.all_eq_true.mp h m hm
  rw [Bool.not_eq_true'] at hmf
  simp [matchStep, hmf]

theorem c6_witness :
    (((preOrderNodes (JSON.obj [("a", JSON.str "x")])).all
        fun m => !is_store_carousel m) = true) ∧
      extract_carousel_titles (JSON.obj [("a", JSON.str "x")]) = [] :=
  ⟨by decide, c6_empty_or_matchless_inputs.2 _ (by decide)⟩

mutual

theorem findAcc_eq (j : JSON) (acc : List CarouselInfo) :
    findAcc j acc = acc ++ find_store_carousels_recursive j := by
  match j with
  | JSON.obj kvs =>
    rw [findAcc, find_store_carousels_recursive, findAccMembers_eq kvs,
      List.append_assoc]
  | JSON.arr xs => rw [findAcc, find_store_carousels_recursive, findAccItems_eq xs]
  | JSON.null => simp [findAcc, find_store_carousels_recursive]
  | JSON.bool b => simp [findAcc, find_store_carousels_recursive]
  | JSON.num n => simp [findAcc, find_store_carousels_recursive]
  | JSON.str s => simp [findAcc, find_store_carousels_recursive]

theorem findAccMembers_eq (kvs : List (String × JSON)) (acc : List CarouselInfo) :
    findAccMembers kvs acc = acc ++ findInMembers kvs := by
  match kvs with
  | [] => simp [findAccMembers, findInMembers]
  | (k, v) :: rest =>
    rw [findAccMembers, findInMembers, findAccMembers_eq rest, findAcc_eq v,
      List.append_assoc]

theorem findAccItems_eq (xs : List JSON) (acc : List CarouselInfo) :
    findAccItems xs acc = acc ++ findInItems xs := by
  match xs with
  | [] => simp [findAccItems, findInItems]
  | x :: rest =>
    rw [findAccItems, findInItems, findAccItems_eq rest, findAcc_eq x,
      List.append_assoc]

end

/-- C7: the walk is a pure function of its input: rerunning it over the
same document into the accumulator produced by a first run appends
exactly the same records again, and two calls of the extractor on one
document are equal.  The source walk only appends to its fresh
accumulator list and never writes to the document, which is what this
pure embedding models. -/
theorem c7_pure_deterministic (data : JSON) :
    findAcc data (findAcc data []) = findAcc data [] ++ findAcc data [] ∧
    extract_carousel_titles data = extract_carousel_titles data := by
  refine ⟨?_, rfl⟩
  rw [findAcc_eq data (findAcc data []), findAcc_eq data []]
  simp

theorem dropWhile_dropWhile (p : Char → Bool) (l : List Char) :
    (l.dropWhile p).dropWhile p = l.dropWhile p := by
  induction l with
  | nil => rfl
  | cons a l ih =>
    by_cases h : p a
    · rw [List.dropWhile_cons_of_pos h, ih]
    · rw [List.dropWhile_cons_of_neg h, List.dropWhile_cons_of_neg h]

theorem dropWhile_eq_self_of_leading (p : Char → Bool) {r l : List Char}
    (hl : l.dropWhile p = l) (hr : r <+: l) : r.dropWhile p = r := by
  match r with
  | [] => rfl
  | c :: t =>
    obtain ⟨u, hu⟩ := hr
    have hl' : List.dropWhile p (c :: (t ++ u)) = c :: (t ++ u) := by
      rw [← List.cons_append, hu]
      exact hl
    have hc : ¬ p c = true := by
      intro hc
      rw [List.dropWhile_cons_of_pos hc] at hl'
      have hle := (List.dropWhile_sublist (l := t ++ u) p).length_le
      rw [hl'] at hle
      simp only [List.length_cons] at hle
      omega
    exact List.dropWhile_cons_of_neg hc

theorem pyStripChars_idem (cs : List Char) :
    pyStripChars (pyStripChars cs) = pyStripChars cs := by
  unfold pyStripChars
  have hAdw : (cs.dropWhile pyIsSpace).dropWhile pyIsSpace =
      cs.dropWhile pyIsSpace := dropWhile_dropWhile _ cs
  have hsuf : (cs.dropWhile pyIsSpace).reverse.dropWhile pyIsSpace <:+
      (cs.dropWhile pyIsSpace).reverse := List.dropWhile_suffix _
  have hpre : ((cs.dropWhile pyIsSpace).reverse.dropWhile pyIsSpace).reverse <+:
      cs.dropWhile pyIsSpace := by
    have := List.reverse_prefix.mpr hsuf
    simpa using this
  have h1 := dropWhile_eq_self_of_leading pyIsSpace hAdw hpre
  rw [h1, List.reverse_reverse, dropWhile_dropWhile]

theorem pyStrip_idem (s : String) : pyStrip (pyStrip s) = pyStrip s :=
  congrArg String.mk (pyStripChars_idem s.data)

/-- The `text` handling of `extract_store_carousel_info` (default `{}`,
`isinstance` check, per-entry filter) agrees with the spec-side
`specTextFields`. -/
theorem textFieldsFrom_getD (kvs : List (String × JSON)) :
    textFieldsFrom ((dictGet kvs "text").getD (JSON.obj [])) = specTextFields kvs := by
  unfold specTextFields
  cases h : dictGet kvs "text" with
  | none => rfl
  | some v => cases v <;> rfl

/-- Every value kept by the text filter is non-empty and already stripped. -/
theorem specTextFields_values (kvs : List (String × JSON)) :
    ∀ p ∈ specTextFields kvs, p.2 ≠ "" ∧ pyStrip p.2 = p.2 := by
  intro p hp
  unfold specTextFields at hp
  split at hp
  next tkvs heq =>
    obtain ⟨q, hq, hfq⟩ := List.mem_filterMap.mp hp
    split at hfq
    next s hs =>
      split at hfq
      next hempty => cases hfq
      next hnon =>
        cases hfq
        exact ⟨hnon, pyStrip_idem s⟩
    next => cases hfq
  next => cases hp

/-- For a node that passes the signature, `extract_store_carousel_info`
returns the record with the two component literals and the filtered text
fields, or nothing when the filter leaves no text. -/
theorem extract_of_signature {kvs : List (String × JSON)}
    (h : is_store_carousel (JSON.obj kvs) = true) :
    extract_store_carousel_info (JSON.obj kvs) =
      if specTextFields kvs = [] then none
      else some
        { id := (dictGet kvs "id").getD (JSON.str "")
          component_id := JSON.str "carousel.standard"
          component_category := JSON.str "carousel"
          text_fields := specTextFields kvs } := by
  obtain ⟨kvs', item_id, comp, heq, hid, hsw, hc, hcid, hcat⟩ :=
    (store_carousel_signature_iff _).mp h
  injection heq with h'
  subst h'
  rw [extract_store_carousel_info, hc]
  simp only [Option.getD_some]
  rw [textFieldsFrom_getD, hcid, hcat]
  simp only [Option.getD_some, List.isEmpty_iff]

/-- C2: for a node satisfying the component signature, the record's
`text_fields` is exactly the `text` mapping filtered to strings that are
non-empty after trimming (stored trimmed, under the original name), and
the match is dropped entirely exactly when that filter result is empty. -/
theorem c2_text_filter (kvs : List (String × JSON))
    (h : is_store_carousel (JSON.obj kvs) = true) :
    (extract_store_carousel_info (JSON.obj kvs) = none ↔ specTextFields kvs = []) ∧
    (∀ info, extract_store_carousel_info (JSON.obj kvs) = some info →
      info.text_fields = specTextFields kvs) ∧
    (specTextFields kvs = [] → matchedRecord (JSON.obj kvs) = []) := by
  have hexcl : specTextFields kvs = [] → matchedRecord (JSON.obj kvs) = [] := by
    intro hs
    rw [matchedRecord, extract_of_signature h, if_pos hs]
    simp
  rw [extract_of_signature h]
  by_cases hs : specTextFields kvs = []
  · rw [if_pos hs]
    exact ⟨⟨fun _ => hs, fun _ => rfl⟩,
      fun info hinfo => Option.noConfusion hinfo, hexcl⟩
  · rw [if_neg hs]
    refine ⟨⟨fun hc => Option.noConfusion hc, fun hc => absurd hc hs⟩, ?_, hexcl⟩
    intro info hinfo
    cases hinfo
    rfl

theorem c2_witness :
    is_store_carousel (JSON.obj sampleMembers) = true ∧
    ((extract_store_carousel_info (JSON.obj sampleMembers) = none ↔
        specTextFields sampleMembers = []) ∧
      (∀ info, extract_store_carousel_info (JSON.obj sampleMembers) = some info →
        info.text_fields = specTextFields sampleMembers) ∧
      (specTextFields sampleMembers = [] →
        matchedRecord (JSON.obj sampleMembers) = [])) :=
  ⟨by decide, c2_text_filter sampleMembers (by decide)⟩

/-- C3: a candidate node whose `component` value is a string (the case
that raises in Python and is caught) never matches, and with such a node
as first sibling the walk still descends into it and goes on to the next
sibling, so valid matches elsewhere are extracted; everything is total,
so no exception propagates. -/
theorem c3_malformed_node_contained (kvs : List (String × JSON)) (s : String)
    (sib : JSON) (h : dictGet kvs "component" = some (JSON.str s)) :
    is_store_carousel (JSON.obj kvs) = false ∧
    find_store_carousels_recursive
        (JSON.obj [("bad", JSON.obj kvs), ("good", sib)]) =
      findInMembers kvs ++ find_store_carousels_recursive sib := by
  have hfalse : is_store_carousel (JSON.obj kvs) = false := by
    cases hb : is_store_carousel (JSON.obj kvs)
    · rfl
    · obtain ⟨kvs', item_id, comp, heq, hid, hsw, hc, hcid, hcat⟩ :=
        (store_carousel_signature_iff _).mp hb
      injection heq with h'
      subst h'
      rw [h] at hc
      cases hc
  refine ⟨hfalse, ?_⟩
  have h1 : find_store_carousels_recursive
      (JSON.obj [("bad", JSON.obj kvs), ("good", sib)]) =
      (matchedRecord (JSON.obj kvs) ++ findInMembers kvs) ++
        (find_store_carousels_recursive sib ++ []) := rfl
  rw [h1, matchedRecord, hfalse]
  simp

theorem c3_witness :
    dictGet sampleMalformedMembers "component" = some (JSON.str "not-a-mapping") ∧
    (is_store_carousel (JSON.obj sampleMalformedMembers) = false ∧
      find_store_carousels_recursive
          (JSON.obj [("bad", JSON.obj sampleMalformedMembers),
            ("good", JSON.obj sampleMembers)]) =
        findInMembers sampleMalformedMembers ++
          find_store_carousels_recursive (JSON.obj sampleMembers)) :=
  ⟨rfl, c3_malformed_node_contained _ "not-a-mapping" _ rfl⟩

/-- C10: every record the extractor emits carries a string id with the
carousel prefix, the two component literals, and a non-empty `text_fields`
whose values are non-empty and free of leading/trailing whitespace. -/
theorem c10_output_invariant (data : JSON) (info : CarouselInfo)
    (h : info ∈ extract_carousel_titles data) :
    (∃ s, info.id = JSON.str s ∧
        pyStartsWith s "carousel.standard:store_carousel" = true) ∧
      info.component_id = JSON.str "carousel.standard" ∧
      info.component_category = JSON.str "carousel" ∧
      info.text_fields ≠ [] ∧
      ∀ p ∈ info.text_fields, p.2 ≠ "" ∧ pyStrip p.2 = p.2 := by
  rw [extract_eq_find data, find_eq_preorder data] at h
  obtain ⟨m, hm, hstep⟩ := List.mem_filterMap.mp h
  rw [matchStep] at hstep
  split at hstep
  next hmatch =>
    obtain ⟨kvs, item_id, comp, heq, hid, hsw, hc, hcid, hcat⟩ :=
      (store_carousel_signature_iff _).mp hmatch
    subst heq
    rw [extract_of_signature hmatch] at hstep
    split at hstep
    next => cases hstep
    next hne =>
      cases hstep
      refine ⟨⟨item_id, ?_, hsw⟩, rfl, rfl, hne, specTextFields_values kvs⟩
      simp [hid]
  next => cases hstep

theorem c10_witness :
    sampleRecord ∈ extract_carousel_titles (JSON.obj sampleMembers) ∧
    ((∃ s, sampleRecord.id = JSON.str s ∧
        pyStartsWith s "carousel.standard:store_carousel" = true) ∧
      sampleRecord.component_id = JSON.str "carousel.standard" ∧
      sampleRecord.component_category = JSON.str "carousel" ∧
      sampleRecord.text_fields ≠ [] ∧
      ∀ p ∈ sampleRecord.text_fields, p.2 ≠ "" ∧ pyStrip p.2 = p.2) := by
  have hmem : sampleRecord ∈ extract_carousel_titles (JSON.obj sampleMembers) := by
    rw [show extract_carousel_titles (JSON.obj sampleMembers) = [sampleRecord] from rfl]
    exact List.mem_singleton.mpr rfl
  exact ⟨hmem, c10_output_invariant _ _ hmem⟩

/-- C8: on a date-marker line, the examined line (the marker line, or the
following line when the marker line has no date) determines the outcome:
two or more dates store the last one as `expiration`, exactly one date is
stored only when the marker line contains `end` or the examined line has
a near-future year literal, and otherwise the date is ignored.  The coded
loop `dateStep` agrees with the spec-side rendering `dateStepSpec`
everywhere. -/
theorem c8_date_rule (m : List (String × String)) (line : String)
    (nx : Option String) : dateStep m line nx = dateStepSpec m line nx := by
  rw [dateStep, dateStepSpec]
  by_cases hm : isDateMarker (pyLower line) = true
  · rw [if_pos hm, if_pos hm, dateLoop]
    cases hl : findDates line with
    | nil =>
      simp only [hl, List.length_nil]
      rw [if_neg (by decide), if_neg (by decide), dateLoop]
      cases hn : findDates (nx.getD "") with
      | nil =>
        simp only [hn, List.length_nil]
        rw [if_neg (by decide), if_neg (by decide), dateLoop]
      | cons d ds =>
        cases ds with
        | nil =>
          simp only [hn, List.length_cons, List.length_nil, List.headD_cons]
          simp
        | cons d2 ds2 =>
          simp only [hn, List.length_cons]
          rw [if_pos (show 2 ≤ ds2.length + 1 + 1 by omega),
            List.getLastD_cons "" d (d2 :: ds2)]
    | cons d ds =>
      cases ds with
      | nil =>
        simp only [hl, List.length_cons, List.length_nil, List.headD_cons]
        simp
      | cons d2 ds2 =>
        simp only [hl, List.length_cons]
        rw [if_pos (show 2 ≤ ds2.length + 1 + 1 by omega),
          List.getLastD_cons "" d (d2 :: ds2)]
  · rw [if_neg hm, if_neg hm]

theorem mem_setKey (m : List (String × String)) (k v : String)
    (p : String × String) (hp : p ∈ setKey m k v) : p = (k, v) ∨ p ∈ m := by
  induction m with
  | nil =>
    rw [setKey] at hp
    rcases List.mem_cons.mp hp with h1 | h2
    · exact Or.inl h1
    · cases h2
  | cons q rest ih =>
    cases q with
    | mk k' v' =>
      by_cases h : k' = k
      · rw [setKey, if_pos h] at hp
        rcases List.mem_cons.mp hp with h1 | h2
        · exact Or.inl h1
        · exact Or.inr (List.mem_cons_of_mem _ h2)
      · rw [setKey, if_neg h] at hp
        rcases List.mem_cons.mp hp with h1 | h2
        · exact Or.inr (h1 ▸ List.mem_cons_self _ _)
        · rcases ih h2 with ha | hb
          · exact Or.inl ha
          · exact Or.inr (List.mem_cons_of_mem _ hb)

theorem keysOk_setKey (m : List (String × String)) (k v : String)
    (hm : ∀ p ∈ m, p.1 ∈ allowedKeys) (hk : k ∈ allowedKeys) :
    ∀ p ∈ setKey m k v, p.1 ∈ allowedKeys := by
  intro p hp
  rcases mem_setKey m k v p hp with h | h
  · rw [h]; exact hk
  · exact hm p h

theorem keysOk_ownerStep (m : List (String × String)) (line : String)
    (nx : Option String) (hm : ∀ p ∈ m, p.1 ∈ allowedKeys) :
    ∀ p ∈ ownerStep m line nx, p.1 ∈ allowedKeys := by
  intro p hp
  cases nx with
  | none =>
    simp only [ownerStep] at hp
    split at hp <;> exact hm p hp
  | some nl =>
    simp only [ownerStep] at hp
    split at hp
    · split at hp
      · exact keysOk_setKey m "owner" (format_email nl) hm (by decide) p hp
      · exact hm p hp
    · exact hm p hp

theorem keysOk_typeStep (m : List (String × String)) (line : String)
    (nx : Option String) (hm : ∀ p ∈ m, p.1 ∈ allowedKeys) :
    ∀ p ∈ typeStep m line nx, p.1 ∈ allowedKeys := by
  intro p hp
  cases nx with
  | none =>
    simp only [typeStep] at hp
    split at hp <;> exact hm p hp
  | some nl =>
    simp only [typeStep] at hp
    split at hp
    · split at hp
      · exact keysOk_setKey m "type" nl hm (by decide) p hp
      · exact hm p hp
    · exact hm p hp

theorem keysOk_returnTypeStep (m : List (String × String)) (line : String)
    (nx : Option String) (hm : ∀ p ∈ m, p.1 ∈ allowedKeys) :
    ∀ p ∈ returnTypeStep m line nx, p.1 ∈ allowedKeys := by
  intro p hp
  cases nx with
  | none =>
    simp only [returnTypeStep] at hp
    split at hp <;> exact hm p hp
  | some nl =>
    simp only [returnTypeStep] at hp
    split at hp
    · rcases mem_setKey _ _ _ _ hp with h | h
      · subst h
        simp [allowedKeys]
      · split at h
        · exact keysOk_setKey m "defaultValue" "false" hm (by decide) p h
        · split at h
          · exact keysOk_setKey m "defaultValue" "control" hm (by decide) p h
          · exact hm p h
    · exact hm p hp

theorem keysOk_descriptionStep (m : List (String × String)) (line : String)
    (nx : Option String) (hm : ∀ p ∈ m, p.1 ∈ allowedKeys) :
    ∀ p ∈ descriptionStep m line nx, p.1 ∈ allowedKeys := by
  intro p hp
  cases nx with
  | none =>
    simp only [descriptionStep] at hp
    split at hp <;> exact hm p hp
  | some nl =>
    simp only [descriptionStep] at hp
    split at hp
    · split at hp
      · exact keysOk_setKey m "description" nl hm (by decide) p hp
      · exact hm p hp
    · exact hm p hp

theorem keysOk_dateLoop (ll : String) (lines : List String)
    (m : List (String × String)) (hm : ∀ p ∈ m, p.1 ∈ allowedKeys) :
    ∀ p ∈ dateLoop m ll lines, p.1 ∈ allowedKeys := by
  induction lines with
  | nil => exact hm
  | cons cl rest ih =>
    intro p hp
    rw [dateLoop] at hp
    split at hp
    · exact ih p hp
    · split at hp
      · exact keysOk_setKey m "expiration" _ hm (by decide) p hp
      · exact hm p hp
    · exact keysOk_setKey m "expiration" _ hm (by decide) p hp

theorem keysOk_dateStep (m : List (String × String)) (line : String)
    (nx : Option String) (hm : ∀ p ∈ m, p.1 ∈ allowedKeys) :
    ∀ p ∈ dateStep m line nx, p.1 ∈ allowedKeys := by
  intro p hp
  rw [dateStep] at hp
  split at hp
  · exact keysOk_dateLoop (pyLower line) [line, nx.getD ""] m hm p hp
  · exact hm p hp

theorem keysOk_processLines (lines : List String) :
    ∀ m, (∀ p ∈ m, p.1 ∈ allowedKeys) →
      ∀ p ∈ processLines m lines, p.1 ∈ allowedKeys := by
  induction lines with
  | nil => intro m hm; exact hm
  | cons line rest ih =>
    intro m hm
    exact ih _ (keysOk_dateStep _ _ _ (keysOk_descriptionStep _ _ _
      (keysOk_returnTypeStep _ _ _ (keysOk_typeStep _ _ _
        (keysOk_ownerStep _ _ _ hm)))))

/-- C9: for every input text the parser is total (never raises) and only
ever emits the seven known field names: every key of the returned record
is one of `key`, `owner`, `type`, `returnType`, `defaultValue`,
`description`, `expiration`. -/
theorem c9_output_keys (content : String) :
    ((extract_fields_from_text content).map Prod.fst).all
      (fun k => decide (k ∈ allowedKeys)) = true := by
  rw [List.all_eq_true]
  intro k hk
  obtain ⟨p, hp, hpk⟩ := List.mem_map.mp hk
  have h1 : ∀ p ∈ extract_fields_from_text content, p.1 ∈ allowedKeys := by
    have hbase : ∀ q ∈ (match findKey (cleanLines content) with
        | some key => setKey [] "key" key
        | none => ([] : List (String × String))), q.1 ∈ allowedKeys := by
      cases findKey (cleanLines content) with
      | none => intro q hq; cases hq
      | some key =>
        intro q hq
        rcases mem_setKey _ _ _ _ hq with h | h
        · subst h
          simp [allowedKeys]
        · cases h
    exact keysOk_processLines _ _ hbase
  rw [← hpk]
  exact decide_eq_true (h1 p hp)

end DDGui
